import Mathlib

/-!
Verification development for the Pedersen analytic eigenray solver
(`python/src/usml/pedersen.py` of the UnderSeaModelingLibrary repository).

The Python module computes analytic ray-path geometry for an n-squared
linear sound speed profile in two coordinate conventions (a flat Cartesian
one and an earth-curvature-corrected Spherical one).  The numpy arrays of
the source are modelled as `List ℝ`, machine floats as real numbers, and
the three external scipy primitives used by the source
(`scipy.optimize.bisect`, `scipy.integrate.quad`,
`scipy.interpolate.pchip_interpolate`) are modelled as components of an
explicit `SciPy` record, so that theorems may quantify over their
behavior and state their documented contracts as hypotheses.  Fallible
steps of the source (`numpy.argmax` on an empty array raises) are modelled
with `Option`.
-/

namespace Pedersen

noncomputable section

/-- Model of `np.radians`: degrees to radians. -/
def radians (x : ℝ) : ℝ := x * Real.pi / 180

/-- Model of `np.degrees`: radians to degrees. -/
def degrees (x : ℝ) : ℝ := x * 180 / Real.pi

/-- Model of the external scipy primitives used by `pedersen.py`.
`bisect f a b` models `scipy.optimize.bisect(f, a, b)`; `quad f a b`
models the first component of `scipy.integrate.quad(f, a, b)`;
`pchip xs ys q` models `scipy.interpolate.pchip_interpolate(xs, ys, q)`
evaluated at a single query point (scipy broadcasts over query arrays
element-wise). -/
structure SciPy where
  bisect : (ℝ → ℝ) → ℝ → ℝ → ℝ
  quad : (ℝ → ℝ) → ℝ → ℝ → ℝ
  pchip : List ℝ → List ℝ → ℝ → ℝ

/-- Configuration stored by `PedersenCartesian.__init__`. -/
structure PedersenCartesian where
  surface_speed : ℝ
  surface_grad : ℝ

/-- Model of `PedersenCartesian.__init__`: it only stores the two
parameters; no validation is performed anywhere in the constructor, so it
cannot fail.  The `Except` wrapper makes the (absence of a) failure mode
explicit. -/
def PedersenCartesian.init (surface_speed surface_grad : ℝ) :
    Except String PedersenCartesian :=
  Except.ok ⟨surface_speed, surface_grad⟩

/-- `PedersenCartesian.sound_speed`:
`surface_speed / np.sqrt(1 + 2 * surface_grad / surface_speed * depth)`. -/
def PedersenCartesian.sound_speed (p : PedersenCartesian) (depth : ℝ) : ℝ :=
  p.surface_speed / Real.sqrt (1 + 2 * p.surface_grad / p.surface_speed * depth)

/-- `PedersenCartesian.vertex_diff`: `1.0 - ray_param * self.sound_speed(depth)`. -/
def PedersenCartesian.vertex_diff (p : PedersenCartesian) (depth ray_param : ℝ) : ℝ :=
  1 - ray_param * p.sound_speed depth

/-- `PedersenCartesian.range_integrand`:
`cosine = ray_param * sound_speed(depth); cosine / np.sqrt(1 - cosine * cosine)`. -/
def PedersenCartesian.range_integrand (p : PedersenCartesian) (depth ray_param : ℝ) : ℝ :=
  let cosine := ray_param * p.sound_speed depth
  cosine / Real.sqrt (1 - cosine * cosine)

/-- `PedersenCartesian.time_integrand`:
`1 / (sound_speed * np.sqrt(1 - cosine * cosine))`. -/
def PedersenCartesian.time_integrand (p : PedersenCartesian) (depth ray_param : ℝ) : ℝ :=
  let c := p.sound_speed depth
  let cosine := ray_param * c
  1 / (c * Real.sqrt (1 - cosine * cosine))

/-- The Snell ray parameter of `PedersenCartesian.analytic_cycle`:
`np.cos(np.radians(angle)) / self.sound_speed(source_depth)`. -/
def cartRayParam (p : PedersenCartesian) (source_depth angle : ℝ) : ℝ :=
  Real.cos (radians angle) / p.sound_speed source_depth

/-- One iteration of the loop body of `PedersenCartesian.analytic_cycle` for a
single launch angle: ray parameter via Snell, vertex depth via the sign test
on `vertex_diff` at the bracket `(0, source_depth)` followed by `bisect`
(else the preset value `0`), then the two `quad` integrals.
Returns `(cycle_range, cycle_time, vertex_depth, ray_param)`. -/
def cartOne (p : PedersenCartesian) (sp : SciPy) (source_depth angle : ℝ) :
    ℝ × ℝ × ℝ × ℝ :=
  let m := cartRayParam p source_depth angle
  let vd := fun z => p.vertex_diff z m
  let v := if vd 0 * vd source_depth < 0 then sp.bisect vd 0 source_depth else 0
  let cr := 2 * sp.quad (fun z => p.range_integrand z m) v source_depth
  let ct := 2 * sp.quad (fun z => p.time_integrand z m) v source_depth
  (cr, ct, v, m)

/-- `PedersenCartesian.analytic_cycle`: the loop over the launch-angle array,
producing the four parallel output arrays
`(cycle_ranges, cycle_times, vertex_depth, ray_param)`. -/
def PedersenCartesian.analytic_cycle (p : PedersenCartesian) (sp : SciPy)
    (source_depth : ℝ) (source_angles : List ℝ) :
    List ℝ × List ℝ × List ℝ × List ℝ :=
  match source_angles with
  | [] => ([], [], [], [])
  | a :: rest =>
    let r := cartOne p sp source_depth a
    let rs := PedersenCartesian.analytic_cycle p sp source_depth rest
    (r.1 :: rs.1, r.2.1 :: rs.2.1, r.2.2.1 :: rs.2.2.1, r.2.2.2 :: rs.2.2.2)

/-- Configuration stored by `PedersenSpherical.__init__`. -/
structure PedersenSpherical where
  surface_speed : ℝ
  surface_grad : ℝ
  earth_radius : ℝ

/-- Model of `PedersenSpherical.__init__`: stores the three parameters with
no validation, so it cannot fail. -/
def PedersenSpherical.init (surface_speed surface_grad earth_radius : ℝ) :
    Except String PedersenSpherical :=
  Except.ok ⟨surface_speed, surface_grad, earth_radius⟩

/-- `PedersenSpherical.sound_speed`:
`surface_speed / np.sqrt(1 + 2 * surface_grad / surface_speed * (earth_radius - radius))
 * radius / earth_radius`. -/
def PedersenSpherical.sound_speed (p : PedersenSpherical) (radius : ℝ) : ℝ :=
  p.surface_speed /
      Real.sqrt (1 + 2 * p.surface_grad / p.surface_speed * (p.earth_radius - radius)) *
    radius / p.earth_radius

/-- `PedersenSpherical.vertex_diff`:
`1.0 - ray_param * self.sound_speed(radius) / radius`. -/
def PedersenSpherical.vertex_diff (p : PedersenSpherical) (radius ray_param : ℝ) : ℝ :=
  1 - ray_param * p.sound_speed radius / radius

/-- `PedersenSpherical.range_integrand`:
`cosine = ray_param * sound_speed(radius) / radius;
 cosine / np.sqrt(1 - cosine * cosine) / radius`. -/
def PedersenSpherical.range_integrand (p : PedersenSpherical) (radius ray_param : ℝ) : ℝ :=
  let cosine := ray_param * p.sound_speed radius / radius
  cosine / Real.sqrt (1 - cosine * cosine) / radius

/-- `PedersenSpherical.time_integrand`:
`1 / (sound_speed * np.sqrt(1 - cosine * cosine))`. -/
def PedersenSpherical.time_integrand (p : PedersenSpherical) (radius ray_param : ℝ) : ℝ :=
  let c := p.sound_speed radius
  let cosine := ray_param * c / radius
  1 / (c * Real.sqrt (1 - cosine * cosine))

/-- The Snell ray parameter of `PedersenSpherical.analytic_cycle`:
`source_radius * np.cos(np.radians(angle)) / self.sound_speed(source_radius)`. -/
def sphRayParam (p : PedersenSpherical) (source_depth angle : ℝ) : ℝ :=
  (p.earth_radius - source_depth) * Real.cos (radians angle) /
    p.sound_speed (p.earth_radius - source_depth)

/-- One iteration of the loop body of `PedersenSpherical.analytic_cycle` for a
single launch angle.  The bracket is `limits = earth_radius - (0, source_depth)
= (earth_radius, source_radius)`, the vertex is preset to
`earth_radius`, and the cycle range is scaled by `source_radius`.
Returns `(cycle_range, cycle_time, vertex_radius, ray_param)`. -/
def sphOne (p : PedersenSpherical) (sp : SciPy) (source_depth angle : ℝ) :
    ℝ × ℝ × ℝ × ℝ :=
  let sr := p.earth_radius - source_depth
  let m := sphRayParam p source_depth angle
  let vd := fun r => p.vertex_diff r m
  let v := if vd p.earth_radius * vd sr < 0 then sp.bisect vd p.earth_radius sr
    else p.earth_radius
  let cr := 2 * sp.quad (fun r => p.range_integrand r m) sr v * sr
  let ct := 2 * sp.quad (fun r => p.time_integrand r m) sr v
  (cr, ct, v, m)

/-- `PedersenSpherical.analytic_cycle`: the loop over the launch-angle array,
producing `(cycle_ranges, cycle_times, vertex_radius, ray_param)`. -/
def PedersenSpherical.analytic_cycle (p : PedersenSpherical) (sp : SciPy)
    (source_depth : ℝ) (source_angles : List ℝ) :
    List ℝ × List ℝ × List ℝ × List ℝ :=
  match source_angles with
  | [] => ([], [], [], [])
  | a :: rest =>
    let r := sphOne p sp source_depth a
    let rs := PedersenSpherical.analytic_cycle p sp source_depth rest
    (r.1 :: rs.1, r.2.1 :: rs.2.1, r.2.2.1 :: rs.2.2.1, r.2.2.2 :: rs.2.2.2)

/-- Model of numpy boolean-mask selection `arr[mask]`: keep the entries of
the list whose mask bit is `true`, in order. -/
def maskSelect : List ℝ → List Bool → List ℝ
  | [], _ => []
  | _ :: _, [] => []
  | x :: xs, true :: bs => x :: maskSelect xs bs
  | _ :: xs, false :: bs => maskSelect xs bs

/-- Auxiliary fold for `argmax?`: scans the list starting at index `i`,
carrying the best (first-occurrence) index and value seen so far. -/
def argmaxAux : List ℝ → ℕ → ℕ × ℝ → ℕ × ℝ
  | [], _, best => best
  | y :: ys, i, best => argmaxAux ys (i + 1) (if best.2 < y then (i, y) else best)

/-- Model of `numpy.ndarray.argmax`: index of the first occurrence of the
maximum value.  On an empty array numpy raises `ValueError`, modelled as
`none`. -/
def argmax? : List ℝ → Option ℕ
  | [] => none
  | x :: xs => some (argmaxAux xs 1 (0, x)).1

/-- Whether a list is strictly increasing from one entry to the next. -/
def chainLt : List ℝ → Bool
  | [] => true
  | [_] => true
  | x :: y :: rest => decide (x < y) && chainLt (y :: rest)

/-- Precondition that `scipy.interpolate.pchip_interpolate` places on its
sample abscissae: `PchipInterpolator` raises `ValueError` unless the array
has at least two entries and is strictly increasing.  `eigenrays` calls it
with each branch sample array, so a branch that violates this precondition
makes the source raise instead of returning. -/
def pchipCheck (xs : List ℝ) : Bool :=
  decide (2 ≤ xs.length) && chainLt xs

/-- The dynamically-attributed `Eigenray` record of the source, with the four
fields that `eigenrays` assigns. -/
structure Eigenray where
  range : List ℝ
  travel_time : List ℝ
  source_de : List ℝ
  target_de : List ℝ

/-- The Snell target-angle cosine computed by `PedersenCartesian.eigenrays`:
`np.cos(np.radians(a)) / source_speed * target_speed`. -/
def targetCosC (p : PedersenCartesian) (source_depth target_depth angle : ℝ) : ℝ :=
  Real.cos (radians angle) / p.sound_speed source_depth * p.sound_speed target_depth

/-- The boolean mask `target_angles < 1.0` of `PedersenCartesian.eigenrays`. -/
def maskC (p : PedersenCartesian) (source_depth target_depth : ℝ)
    (source_angles : List ℝ) : List Bool :=
  (source_angles.map (targetCosC p source_depth target_depth)).map
    (fun x => decide (x < 1))

/-- The clipped source-angle sweep `source_angles[index]` of
`PedersenCartesian.eigenrays`. -/
def keptSrcC (p : PedersenCartesian) (source_depth target_depth : ℝ)
    (source_angles : List ℝ) : List ℝ :=
  maskSelect source_angles (maskC p source_depth target_depth source_angles)

/-- The clipped and transformed target-angle array
`-np.degrees(np.arccos(target_angles[index]))` of `PedersenCartesian.eigenrays`. -/
def keptTgtC (p : PedersenCartesian) (source_depth target_depth : ℝ)
    (source_angles : List ℝ) : List ℝ :=
  (maskSelect (source_angles.map (targetCosC p source_depth target_depth))
      (maskC p source_depth target_depth source_angles)).map
    (fun x => -(degrees (Real.arccos x)))

/-- The composite per-angle cycle ranges
`0.5 * (source_cycle_ranges + target_cycle_ranges)` of
`PedersenCartesian.eigenrays`. -/
def cycleRangesC (p : PedersenCartesian) (sp : SciPy)
    (source_depth target_depth : ℝ) (source_angles : List ℝ) : List ℝ :=
  List.zipWith (fun x y => 0.5 * (x + y))
    (p.analytic_cycle sp source_depth (keptSrcC p source_depth target_depth source_angles)).1
    (p.analytic_cycle sp target_depth (keptTgtC p source_depth target_depth source_angles)).1

/-- The composite per-angle cycle times
`0.5 * (source_cycle_times + target_cycle_times)` of
`PedersenCartesian.eigenrays`. -/
def cycleTimesC (p : PedersenCartesian) (sp : SciPy)
    (source_depth target_depth : ℝ) (source_angles : List ℝ) : List ℝ :=
  List.zipWith (fun x y => 0.5 * (x + y))
    (p.analytic_cycle sp source_depth (keptSrcC p source_depth target_depth source_angles)).2.1
    (p.analytic_cycle sp target_depth (keptTgtC p source_depth target_depth source_angles)).2.1

/-- The break-point index `max_index = cycle_ranges.argmax()` of
`PedersenCartesian.eigenrays` (defaulting to `0` when the array is empty, in
which case `eigenrays` returns `none` anyway). -/
def maxIdxC (p : PedersenCartesian) (sp : SciPy)
    (source_depth target_depth : ℝ) (source_angles : List ℝ) : ℕ :=
  (argmax? (cycleRangesC p sp source_depth target_depth source_angles)).getD 0

/-- The clipped target-range list of `PedersenCartesian.eigenrays`:
`target_ranges[cycle_ranges[0] <= target_ranges <= cycle_ranges[max_index]]`. -/
def clippedC (p : PedersenCartesian) (sp : SciPy)
    (source_depth target_depth : ℝ) (source_angles target_ranges : List ℝ) : List ℝ :=
  let crs := cycleRangesC p sp source_depth target_depth source_angles
  let lo := crs.getD 0 0
  let hi := crs.getD (maxIdxC p sp source_depth target_depth source_angles) 0
  target_ranges.filter (fun t => decide (lo ≤ t) && decide (t ≤ hi))

/-- `PedersenCartesian.eigenrays`.  The `none` cases model the `ValueError`
exceptions of the source: `numpy.argmax` raises on an empty array (which
happens exactly when the Snell mask discards every launch angle), and
`pchip_interpolate` raises when a branch sample array has fewer than two
entries or is not strictly increasing. -/
def PedersenCartesian.eigenrays (p : PedersenCartesian) (sp : SciPy)
    (source_depth : ℝ) (source_angles : List ℝ) (target_depth : ℝ)
    (target_ranges : List ℝ) : Option (Eigenray × Eigenray) :=
  let srcA := keptSrcC p source_depth target_depth source_angles
  let tgtA := keptTgtC p source_depth target_depth source_angles
  let crs := cycleRangesC p sp source_depth target_depth source_angles
  let cts := cycleTimesC p sp source_depth target_depth source_angles
  match argmax? crs with
  | none => none
  | some m =>
    if pchipCheck (crs.take m) && pchipCheck (crs.drop m).reverse then
      let clipped := clippedC p sp source_depth target_depth source_angles target_ranges
      let direct : Eigenray :=
        { range := clipped
          travel_time := clipped.map (sp.pchip (crs.take m) (cts.take m))
          source_de := clipped.map (sp.pchip (crs.take m) (srcA.take m))
          target_de := clipped.map (sp.pchip (crs.take m) (tgtA.take m)) }
      let folded : Eigenray :=
        { range := clipped
          travel_time := clipped.map (sp.pchip (crs.drop m).reverse (cts.drop m).reverse)
          source_de := clipped.map (sp.pchip (crs.drop m).reverse (srcA.drop m).reverse)
          target_de := clipped.map (sp.pchip (crs.drop m).reverse (tgtA.drop m).reverse) }
      some (direct, folded)
    else none

/-- The Snell target-angle cosine computed by `PedersenSpherical.eigenrays`:
`np.cos(np.radians(a)) / source_speed * target_speed * source_radius / target_radius`. -/
def targetCosS (p : PedersenSpherical) (source_depth target_depth angle : ℝ) : ℝ :=
  Real.cos (radians angle) / p.sound_speed (p.earth_radius - source_depth) *
      p.sound_speed (p.earth_radius - target_depth) *
      (p.earth_radius - source_depth) / (p.earth_radius - target_depth)

/-- The boolean mask `target_angles < 1.0` of `PedersenSpherical.eigenrays`. -/
def maskS (p : PedersenSpherical) (source_depth target_depth : ℝ)
    (source_angles : List ℝ) : List Bool :=
  (source_angles.map (targetCosS p source_depth target_depth)).map
    (fun x => decide (x < 1))

/-- The clipped source-angle sweep of `PedersenSpherical.eigenrays`. -/
def keptSrcS (p : PedersenSpherical) (source_depth target_depth : ℝ)
    (source_angles : List ℝ) : List ℝ :=
  maskSelect source_angles (maskS p source_depth target_depth source_angles)

/-- The clipped and transformed target-angle array of
`PedersenSpherical.eigenrays`. -/
def keptTgtS (p : PedersenSpherical) (source_depth target_depth : ℝ)
    (source_angles : List ℝ) : List ℝ :=
  (maskSelect (source_angles.map (targetCosS p source_depth target_depth))
      (maskS p source_depth target_depth source_angles)).map
    (fun x => -(degrees (Real.arccos x)))

/-- The composite per-angle cycle ranges of `PedersenSpherical.eigenrays`. -/
def cycleRangesS (p : PedersenSpherical) (sp : SciPy)
    (source_depth target_depth : ℝ) (source_angles : List ℝ) : List ℝ :=
  List.zipWith (fun x y => 0.5 * (x + y))
    (p.analytic_cycle sp source_depth (keptSrcS p source_depth target_depth source_angles)).1
    (p.analytic_cycle sp target_depth (keptTgtS p source_depth target_depth source_angles)).1

/-- The composite per-angle cycle times of `PedersenSpherical.eigenrays`. -/
def cycleTimesS (p : PedersenSpherical) (sp : SciPy)
    (source_depth target_depth : ℝ) (source_angles : List ℝ) : List ℝ :=
  List.zipWith (fun x y => 0.5 * (x + y))
    (p.analytic_cycle sp source_depth (keptSrcS p source_depth target_depth source_angles)).2.1
    (p.analytic_cycle sp target_depth (keptTgtS p source_depth target_depth source_angles)).2.1

/-- The break-point index of `PedersenSpherical.eigenrays`. -/
def maxIdxS (p : PedersenSpherical) (sp : SciPy)
    (source_depth target_depth : ℝ) (source_angles : List ℝ) : ℕ :=
  (argmax? (cycleRangesS p sp source_depth target_depth source_angles)).getD 0

/-- The clipped target-range list of `PedersenSpherical.eigenrays`. -/
def clippedS (p : PedersenSpherical) (sp : SciPy)
    (source_depth target_depth : ℝ) (source_angles target_ranges : List ℝ) : List ℝ :=
  let crs := cycleRangesS p sp source_depth target_depth source_angles
  let lo := crs.getD 0 0
  let hi := crs.getD (maxIdxS p sp source_depth target_depth source_angles) 0
  target_ranges.filter (fun t => decide (lo ≤ t) && decide (t ≤ hi))

/-- `PedersenSpherical.eigenrays`, with the same `Option` modelling of the
`numpy.argmax` failure on an empty array and of the `pchip_interpolate`
failure on a branch sample array with fewer than two entries or out of
strictly increasing order. -/
def PedersenSpherical.eigenrays (p : PedersenSpherical) (sp : SciPy)
    (source_depth : ℝ) (source_angles : List ℝ) (target_depth : ℝ)
    (target_ranges : List ℝ) : Option (Eigenray × Eigenray) :=
  let srcA := keptSrcS p source_depth target_depth source_angles
  let tgtA := keptTgtS p source_depth target_depth source_angles
  let crs := cycleRangesS p sp source_depth target_depth source_angles
  let cts := cycleTimesS p sp source_depth target_depth source_angles
  match argmax? crs with
  | none => none
  | some m =>
    if pchipCheck (crs.take m) && pchipCheck (crs.drop m).reverse then
      let clipped := clippedS p sp source_depth target_depth source_angles target_ranges
      let direct : Eigenray :=
        { range := clipped
          travel_time := clipped.map (sp.pchip (crs.take m) (cts.take m))
          source_de := clipped.map (sp.pchip (crs.take m) (srcA.take m))
          target_de := clipped.map (sp.pchip (crs.take m) (tgtA.take m)) }
      let folded : Eigenray :=
        { range := clipped
          travel_time := clipped.map (sp.pchip (crs.drop m).reverse (cts.drop m).reverse)
          source_de := clipped.map (sp.pchip (crs.drop m).reverse (srcA.drop m).reverse)
          target_de := clipped.map (sp.pchip (crs.drop m).reverse (tgtA.drop m).reverse) }
      some (direct, folded)
    else none

end

/-! ### Helper lemmas about the list-level primitives -/

theorem maskSelect_map (f : ℝ → Bool) :
    ∀ xs : List ℝ, maskSelect xs (xs.map f) = xs.filter f := by
  intro xs
  induction xs with
  | nil => rfl
  | cons x xs ih =>
    by_cases h : f x
    · simp [maskSelect, List.filter_cons, h, ih]
    · have hx : f x = false := by simpa using h
      simp [maskSelect, List.filter_cons, hx, ih]

theorem argmaxAux_lt :
    ∀ (ys : List ℝ) (i : ℕ) (b : ℕ × ℝ), b.1 < i →
      (argmaxAux ys i b).1 < i + ys.length := by
  intro ys
  induction ys with
  | nil => intro i b hb; simpa [argmaxAux] using hb
  | cons y ys ih =>
    intro i b hb
    have hb' : (if b.2 < y then ((i, y) : ℕ × ℝ) else b).1 < i + 1 := by
      by_cases h : b.2 < y
      · rw [if_pos h]; omega
      · rw [if_neg h]; omega
    have h2 := ih (i + 1) (if b.2 < y then (i, y) else b) hb'
    have hrw : argmaxAux (y :: ys) i b
        = argmaxAux ys (i + 1) (if b.2 < y then (i, y) else b) := rfl
    rw [hrw]
    simp only [List.length_cons]
    omega

theorem argmaxAux_ge :
    ∀ (ys : List ℝ) (i : ℕ) (b : ℕ × ℝ),
      b.2 ≤ (argmaxAux ys i b).2 ∧ ∀ y ∈ ys, y ≤ (argmaxAux ys i b).2 := by
  intro ys
  induction ys with
  | nil => intro i b; simp [argmaxAux]
  | cons y ys ih =>
    intro i b
    obtain ⟨h1, h2⟩ := ih (i + 1) (if b.2 < y then (i, y) else b)
    have hrw : argmaxAux (y :: ys) i b
        = argmaxAux ys (i + 1) (if b.2 < y then (i, y) else b) := rfl
    rw [hrw]
    refine ⟨le_trans ?_ h1, ?_⟩
    · by_cases h : b.2 < y
      · rw [if_pos h]; exact le_of_lt h
      · rw [if_neg h]
    · intro z hz
      rcases List.mem_cons.mp hz with rfl | hz
      · refine le_trans ?_ h1
        by_cases h : b.2 < z
        · rw [if_pos h]
        · rw [if_neg h]; exact le_of_not_lt h
      · exact h2 z hz

theorem argmaxAux_mem :
    ∀ (ys : List ℝ) (i : ℕ) (b : ℕ × ℝ),
      argmaxAux ys i b = b ∨
        ∃ j, j < ys.length ∧ (argmaxAux ys i b).1 = i + j ∧
          (argmaxAux ys i b).2 = ys.getD j 0 := by
  intro ys
  induction ys with
  | nil => intro i b; left; rfl
  | cons y ys ih =>
    intro i b
    have hrw : argmaxAux (y :: ys) i b
        = argmaxAux ys (i + 1) (if b.2 < y then (i, y) else b) := rfl
    rcases ih (i + 1) (if b.2 < y then (i, y) else b) with h | ⟨j, hj, h1, h2⟩
    · by_cases hby : b.2 < y
      · right
        rw [if_pos hby] at h
        refine ⟨0, by simp, ?_, ?_⟩
        · rw [hrw, if_pos hby, h]; simp
        · rw [hrw, if_pos hby, h]; simp
      · left
        rw [if_neg hby] at h
        rw [hrw, if_neg hby, h]
    · right
      refine ⟨j + 1, by simp only [List.length_cons]; omega, ?_, ?_⟩
      · rw [hrw, h1]; omega
      · rw [hrw, h2]; simp

theorem argmax?_lt {l : List ℝ} {m : ℕ} (h : argmax? l = some m) : m < l.length := by
  cases l with
  | nil => simp [argmax?] at h
  | cons x xs =>
    have hm : m = (argmaxAux xs 1 (0, x)).1 := by
      simpa [argmax?] using h.symm
    have h2 := argmaxAux_lt xs 1 (0, x) (by norm_num)
    rw [hm]
    simp only [List.length_cons]
    omega

theorem argmax?_getD_max {l : List ℝ} {m : ℕ} (h : argmax? l = some m) :
    ∀ x ∈ l, x ≤ l.getD m 0 := by
  cases l with
  | nil => simp [argmax?] at h
  | cons x xs =>
    have hm : m = (argmaxAux xs 1 (0, x)).1 := by
      simpa [argmax?] using h.symm
    have hval : (x :: xs).getD m 0 = (argmaxAux xs 1 (0, x)).2 := by
      rcases argmaxAux_mem xs 1 (0, x) with heq | ⟨j, hj, h1, h2⟩
      · rw [hm, heq]; simp
      · rw [hm, h1, h2, Nat.add_comm]
        simp
    obtain ⟨h1, h2⟩ := argmaxAux_ge xs 1 (0, x)
    intro z hz
    rw [hval]
    rcases List.mem_cons.mp hz with rfl | hz
    · exact h1
    · exact h2 z hz

theorem argmax?_nil : argmax? [] = none := rfl

theorem argmax?_eq_none {l : List ℝ} (h : l = []) : argmax? l = none := by
  rw [h]; rfl

theorem cart_analytic_cycle_eq_map (p : PedersenCartesian) (sp : SciPy)
    (source_depth : ℝ) :
    ∀ angles : List ℝ, p.analytic_cycle sp source_depth angles =
      (angles.map (fun a => (cartOne p sp source_depth a).1),
       angles.map (fun a => (cartOne p sp source_depth a).2.1),
       angles.map (fun a => (cartOne p sp source_depth a).2.2.1),
       angles.map (fun a => (cartOne p sp source_depth a).2.2.2)) := by
  intro angles
  induction angles with
  | nil => rfl
  | cons a rest ih => simp [PedersenCartesian.analytic_cycle, ih]

theorem sph_analytic_cycle_eq_map (p : PedersenSpherical) (sp : SciPy)
    (source_depth : ℝ) :
    ∀ angles : List ℝ, p.analytic_cycle sp source_depth angles =
      (angles.map (fun a => (sphOne p sp source_depth a).1),
       angles.map (fun a => (sphOne p sp source_depth a).2.1),
       angles.map (fun a => (sphOne p sp source_depth a).2.2.1),
       angles.map (fun a => (sphOne p sp source_depth a).2.2.2)) := by
  intro angles
  induction angles with
  | nil => rfl
  | cons a rest ih => simp [PedersenSpherical.analytic_cycle, ih]

theorem getD_map (f : ℝ → ℝ) (l : List ℝ) (i : ℕ) (h : i < l.length) (d : ℝ) :
    (l.map f).getD i d = f (l.getD i d) := by
  induction l generalizing i with
  | nil => simp at h
  | cons x xs ih =>
    cases i with
    | zero => simp
    | succ n => simpa using ih n (by simpa using h)

/-! ### Concrete instances used in witnesses and counterexamples -/

noncomputable section

/-- Trivial scipy stand-in: every primitive returns `0`. -/
def spStub : SciPy := ⟨fun _ _ _ => 0, fun _ _ _ => 0, fun _ _ _ => 0⟩

/-- Scipy stand-in whose root finder always answers `1/3`. -/
def spRoot : SciPy := ⟨fun _ _ _ => 1 / 3, fun _ _ _ => 0, fun _ _ _ => 0⟩

/-- Scipy stand-in whose quadrature is the one-point right-endpoint rule
`f b * (b - a)`: it is nonnegative whenever the integrand is nonnegative on
an ordered interval, so it meets the sign contract of an ideal quadrature. -/
def spEval : SciPy := ⟨fun _ _ _ => 0, fun f a b => f b * (b - a), fun _ _ _ => 0⟩

/-- Toy Cartesian configuration: unit surface speed, gradient `3/2`, so that
`sound_speed z = 1 / sqrt (1 + 3 z)` takes rational values at `z = 0, 1`. -/
def pCart1 : PedersenCartesian := ⟨1, 3 / 2⟩

/-- Toy Spherical configuration with unit earth radius. -/
def pSph1 : PedersenSpherical := ⟨1, 3 / 2, 1⟩

/-- The default configuration of the source, `surface_speed=1550.0,
surface_grad=1.2`. -/
def pCartD : PedersenCartesian := ⟨1550, 6 / 5⟩

/-- Scipy stand-in whose quadrature is the one-point rule that samples the
integrand at the right integration limit, `f b`.  With anchor depth 0 this
makes each per-angle cycle range a simple closed-form function of the launch
angle, so a four-angle sweep can realize an interior argmax. -/
def spProbe : SciPy := ⟨fun _ _ _ => 0, fun f _ b => f b, fun _ _ _ => 0⟩

/-- The eigenray record produced by the returning stub evaluation below:
one query at range 2, whose interpolated fields are the pchip stub value 0. -/
def eigTwo : Eigenray := ⟨[2], [0], [0], [0]⟩

end

/-! ### Evaluation lemmas for the concrete instances -/

theorem radians_zero : radians 0 = 0 := by simp [radians]

theorem cos_radians_zero : Real.cos (radians 0) = 1 := by
  rw [radians_zero, Real.cos_zero]

theorem radians_sixty : radians 60 = Real.pi / 3 := by unfold radians; ring

theorem cos_radians_sixty : Real.cos (radians 60) = 1 / 2 := by
  rw [radians_sixty, Real.cos_pi_div_three]

theorem radians_fortyfive : radians 45 = Real.pi / 4 := by unfold radians; ring

theorem cos_radians_fortyfive : Real.cos (radians 45) = Real.sqrt 2 / 2 := by
  rw [radians_fortyfive, Real.cos_pi_div_four]

theorem radians_onetwenty : radians 120 = Real.pi - Real.pi / 3 := by
  unfold radians; ring

theorem cos_radians_onetwenty : Real.cos (radians 120) = -(1 / 2) := by
  rw [radians_onetwenty, Real.cos_pi_sub, Real.cos_pi_div_three]

theorem sqrt_four : Real.sqrt 4 = 2 := by
  rw [show (4 : ℝ) = 2 ^ 2 by norm_num, Real.sqrt_sq (by norm_num)]

theorem pCart1_sound_speed (z : ℝ) :
    pCart1.sound_speed z = 1 / Real.sqrt (1 + 3 * z) := by
  show (1 : ℝ) / Real.sqrt (1 + 2 * (3 / 2) / 1 * z) = 1 / Real.sqrt (1 + 3 * z)
  norm_num

theorem pCart1_ss_zero : pCart1.sound_speed 0 = 1 := by
  rw [pCart1_sound_speed]
  norm_num [Real.sqrt_one]

theorem pCart1_ss_one : pCart1.sound_speed 1 = 1 / 2 := by
  rw [pCart1_sound_speed]
  norm_num [sqrt_four]

theorem pCart1_ss_third : pCart1.sound_speed (1 / 3) = 1 / Real.sqrt 2 := by
  rw [pCart1_sound_speed]
  norm_num

theorem pCartD_ss_zero : pCartD.sound_speed 0 = 1550 := by
  show (1550 : ℝ) / Real.sqrt (1 + 2 * (6 / 5) / 1550 * 0) = 1550
  norm_num [Real.sqrt_one]

theorem pSph1_sound_speed (r : ℝ) :
    pSph1.sound_speed r = 1 / Real.sqrt (1 + 3 * (1 - r)) * r := by
  show (1 : ℝ) / Real.sqrt (1 + 2 * (3 / 2) / 1 * (1 - r)) * r / 1
      = 1 / Real.sqrt (1 + 3 * (1 - r)) * r
  norm_num

theorem pSph1_ss_one : pSph1.sound_speed 1 = 1 := by
  rw [pSph1_sound_speed]
  norm_num [Real.sqrt_one]

theorem radians_ninety : radians 90 = Real.pi / 2 := by unfold radians; ring

theorem cos_radians_ninety : Real.cos (radians 90) = 0 := by
  rw [radians_ninety, Real.cos_pi_div_two]

theorem radians_neg (a : ℝ) : radians (-a) = -radians a := by unfold radians; ring

theorem cos_radians_neg (a : ℝ) : Real.cos (radians (-a)) = Real.cos (radians a) := by
  rw [radians_neg, Real.cos_neg]

theorem sqrt3_pos : 0 < Real.sqrt 3 := Real.sqrt_pos.mpr (by norm_num)

theorem one_lt_sqrt3 : 1 < Real.sqrt 3 := by
  have h := Real.sqrt_lt_sqrt (by norm_num : (0 : ℝ) ≤ 1) (by norm_num : (1 : ℝ) < 3)
  rwa [Real.sqrt_one] at h

theorem sqrt2_lt_two : Real.sqrt 2 < 2 := by
  have h := Real.sqrt_lt_sqrt (by norm_num : (0 : ℝ) ≤ 2) (by norm_num : (2 : ℝ) < 4)
  rwa [sqrt_four] at h

theorem sqrt2_half_lt_one : Real.sqrt 2 / 2 < 1 := by
  have h := sqrt2_lt_two
  linarith

theorem crsLo_pos : (0 : ℝ) < 2 / Real.sqrt 3 := div_pos (by norm_num) sqrt3_pos

theorem crsMid_lt : (2 : ℝ) / Real.sqrt 3 < 2 := by
  rw [div_lt_iff₀ sqrt3_pos]
  nlinarith [one_lt_sqrt3]

theorem sqrt_three_quarters : Real.sqrt (3 / 4) = Real.sqrt 3 / 2 := by
  rw [show (3 / 4 : ℝ) = (Real.sqrt 3 / 2) ^ 2 by
      rw [div_pow, Real.sq_sqrt (by norm_num : (0 : ℝ) ≤ 3)]
      norm_num]
  exact Real.sqrt_sq (by positivity)

theorem sqrt_half : Real.sqrt (1 / 2) = Real.sqrt 2 / 2 := by
  rw [show (1 / 2 : ℝ) = (Real.sqrt 2 / 2) ^ 2 by
      rw [div_pow, Real.sq_sqrt (by norm_num : (0 : ℝ) ≤ 2)]
      norm_num]
  exact Real.sqrt_sq (by positivity)

/-! ### A four-angle scenario on which `eigenrays` genuinely returns

With anchor depths 0, the `spProbe` quadrature stand-in makes each per-angle
cycle range equal to `2 * cos / sqrt (1 - cos ^ 2)` of the launch angle, so
the sweep `[90, 60, 45, 60]` yields composite cycle ranges
`[0, 2 / sqrt 3, 2, 2 / sqrt 3]` with the argmax at the interior index 2.
Both branch sample arrays (`[0, 2 / sqrt 3]` and `[2 / sqrt 3, 2]`) have two
strictly increasing entries, so `pchip_interpolate` accepts them and the
source returns; the clipped query 2 nevertheless exceeds every direct-branch
sample. -/

theorem cartRayParam_pCart1_zero (a : ℝ) :
    cartRayParam pCart1 0 a = Real.cos (radians a) := by
  rw [cartRayParam, pCart1_ss_zero, div_one]

theorem integrandC_pCart1_zero (m : ℝ) :
    pCart1.range_integrand 0 m = m / Real.sqrt (1 - m * m) := by
  simp only [PedersenCartesian.range_integrand]
  rw [pCart1_ss_zero, mul_one]

theorem cartOne_spProbe_fst (p : PedersenCartesian) (zs a : ℝ) :
    (cartOne p spProbe zs a).1 = 2 * p.range_integrand zs (cartRayParam p zs a) := rfl

theorem crC_val (a : ℝ) :
    (cartOne pCart1 spProbe 0 a).1
      = 2 * (Real.cos (radians a) /
          Real.sqrt (1 - Real.cos (radians a) * Real.cos (radians a))) := by
  rw [cartOne_spProbe_fst, cartRayParam_pCart1_zero, integrandC_pCart1_zero]

theorem pSph1_R : pSph1.earth_radius = 1 := rfl

theorem sphRayParam_pSph1_zero (a : ℝ) :
    sphRayParam pSph1 0 a = Real.cos (radians a) := by
  rw [sphRayParam, sub_zero, pSph1_R, pSph1_ss_one]
  norm_num

theorem integrandS_pSph1_one (m : ℝ) :
    pSph1.range_integrand 1 m = m / Real.sqrt (1 - m * m) := by
  simp only [PedersenSpherical.range_integrand]
  rw [pSph1_ss_one]
  norm_num

theorem sphOne_spProbe_zero_fst (a : ℝ) :
    (sphOne pSph1 spProbe 0 a).1
      = 2 * pSph1.range_integrand 1 (sphRayParam pSph1 0 a) := by
  simp only [sphOne, sub_zero]
  rw [if_neg (not_lt.mpr (mul_self_nonneg _))]
  rw [pSph1_R]
  simp [spProbe]

theorem crS_val (a : ℝ) :
    (sphOne pSph1 spProbe 0 a).1
      = 2 * (Real.cos (radians a) /
          Real.sqrt (1 - Real.cos (radians a) * Real.cos (radians a))) := by
  rw [sphOne_spProbe_zero_fst, sphRayParam_pSph1_zero, integrandS_pSph1_one]

theorem Jfun_ninety :
    Real.cos (radians 90) /
        Real.sqrt (1 - Real.cos (radians 90) * Real.cos (radians 90)) = 0 := by
  rw [cos_radians_ninety]
  norm_num

theorem Jfun_sixty :
    Real.cos (radians 60) /
        Real.sqrt (1 - Real.cos (radians 60) * Real.cos (radians 60))
      = 1 / Real.sqrt 3 := by
  rw [cos_radians_sixty, show (1 : ℝ) - 1 / 2 * (1 / 2) = 3 / 4 by norm_num,
    sqrt_three_quarters, div_div_eq_mul_div]
  norm_num

theorem Jfun_fortyfive :
    Real.cos (radians 45) /
        Real.sqrt (1 - Real.cos (radians 45) * Real.cos (radians 45)) = 1 := by
  rw [cos_radians_fortyfive,
    show (1 : ℝ) - Real.sqrt 2 / 2 * (Real.sqrt 2 / 2) = 1 / 2 by
      rw [div_mul_div_comm, Real.mul_self_sqrt (by norm_num : (0 : ℝ) ≤ 2)]
      norm_num,
    sqrt_half, div_self (ne_of_gt (by positivity))]

theorem crC_ninety : (cartOne pCart1 spProbe 0 90).1 = 0 := by
  rw [crC_val, Jfun_ninety, mul_zero]

theorem crC_sixty : (cartOne pCart1 spProbe 0 60).1 = 2 / Real.sqrt 3 := by
  rw [crC_val, Jfun_sixty, mul_one_div]

theorem crC_fortyfive : (cartOne pCart1 spProbe 0 45).1 = 2 := by
  rw [crC_val, Jfun_fortyfive, mul_one]

theorem crC_neg (a : ℝ) :
    (cartOne pCart1 spProbe 0 (-a)).1 = (cartOne pCart1 spProbe 0 a).1 := by
  rw [crC_val, crC_val, cos_radians_neg]

theorem crS_ninety : (sphOne pSph1 spProbe 0 90).1 = 0 := by
  rw [crS_val, Jfun_ninety, mul_zero]

theorem crS_sixty : (sphOne pSph1 spProbe 0 60).1 = 2 / Real.sqrt 3 := by
  rw [crS_val, Jfun_sixty, mul_one_div]

theorem crS_fortyfive : (sphOne pSph1 spProbe 0 45).1 = 2 := by
  rw [crS_val, Jfun_fortyfive, mul_one]

theorem crS_neg (a : ℝ) :
    (sphOne pSph1 spProbe 0 (-a)).1 = (sphOne pSph1 spProbe 0 a).1 := by
  rw [crS_val, crS_val, cos_radians_neg]

theorem targetCosC_pCart1_zero_zero (a : ℝ) :
    targetCosC pCart1 0 0 a = Real.cos (radians a) := by
  rw [targetCosC, pCart1_ss_zero, div_one, mul_one]

theorem targetCosS_pSph1_zero_zero (a : ℝ) :
    targetCosS pSph1 0 0 a = Real.cos (radians a) := by
  rw [targetCosS, sub_zero, pSph1_R, pSph1_ss_one]
  norm_num

theorem deg_arccos_zero : -(degrees (Real.arccos 0)) = -90 := by
  rw [Real.arccos_zero]
  unfold degrees
  field_simp [Real.pi_ne_zero]
  ring

theorem deg_arccos_half : -(degrees (Real.arccos (1 / 2))) = -60 := by
  rw [show (1 / 2 : ℝ) = Real.cos (Real.pi / 3) from Real.cos_pi_div_three.symm,
    Real.arccos_cos (by positivity) (by linarith [Real.pi_pos])]
  unfold degrees
  field_simp [Real.pi_ne_zero]
  ring

theorem deg_arccos_sqrt2half : -(degrees (Real.arccos (Real.sqrt 2 / 2))) = -45 := by
  rw [show Real.sqrt 2 / 2 = Real.cos (Real.pi / 4) from Real.cos_pi_div_four.symm,
    Real.arccos_cos (by positivity) (by linarith [Real.pi_pos])]
  unfold degrees
  field_simp [Real.pi_ne_zero]
  ring

theorem spProbe_pchip (xs ys : List ℝ) (q : ℝ) : spProbe.pchip xs ys q = 0 := rfl

theorem maskC_scen : maskC pCart1 0 0 [90, 60, 45, 60] = [true, true, true, true] := by
  simp only [maskC, List.map_cons, List.map_nil, targetCosC_pCart1_zero_zero,
    cos_radians_ninety, cos_radians_sixty, cos_radians_fortyfive]
  norm_num [sqrt2_half_lt_one]

theorem keptSrcC_scen : keptSrcC pCart1 0 0 [90, 60, 45, 60] = [90, 60, 45, 60] := by
  rw [keptSrcC, maskC_scen]
  rfl

theorem keptTgtC_scen :
    keptTgtC pCart1 0 0 [90, 60, 45, 60] = [-90, -60, -45, -60] := by
  rw [keptTgtC, maskC_scen]
  simp only [List.map_cons, List.map_nil, targetCosC_pCart1_zero_zero,
    cos_radians_ninety, cos_radians_sixty, cos_radians_fortyfive, maskSelect]
  rw [deg_arccos_zero, deg_arccos_half, deg_arccos_sqrt2half]

theorem maskS_scen : maskS pSph1 0 0 [90, 60, 45, 60] = [true, true, true, true] := by
  simp only [maskS, List.map_cons, List.map_nil, targetCosS_pSph1_zero_zero,
    cos_radians_ninety, cos_radians_sixty, cos_radians_fortyfive]
  norm_num [sqrt2_half_lt_one]

theorem keptSrcS_scen : keptSrcS pSph1 0 0 [90, 60, 45, 60] = [90, 60, 45, 60] := by
  rw [keptSrcS, maskS_scen]
  rfl

theorem keptTgtS_scen :
    keptTgtS pSph1 0 0 [90, 60, 45, 60] = [-90, -60, -45, -60] := by
  rw [keptTgtS, maskS_scen]
  simp only [List.map_cons, List.map_nil, targetCosS_pSph1_zero_zero,
    cos_radians_ninety, cos_radians_sixty, cos_radians_fortyfive, maskSelect]
  rw [deg_arccos_zero, deg_arccos_half, deg_arccos_sqrt2half]

theorem crsC_scen :
    cycleRangesC pCart1 spProbe 0 0 [90, 60, 45, 60]
      = [0, 2 / Real.sqrt 3, 2, 2 / Real.sqrt 3] := by
  rw [cycleRangesC, keptSrcC_scen, keptTgtC_scen, cart_analytic_cycle_eq_map,
    cart_analytic_cycle_eq_map]
  simp only [List.map_cons, List.map_nil, crC_neg]
  rw [crC_ninety, crC_sixty, crC_fortyfive]
  have h : (0.5 : ℝ) * (2 / Real.sqrt 3 + 2 / Real.sqrt 3) = 2 / Real.sqrt 3 := by
    ring
  simp only [List.zipWith_cons_cons, List.zipWith_nil_left, h]
  norm_num

theorem crsS_scen :
    cycleRangesS pSph1 spProbe 0 0 [90, 60, 45, 60]
      = [0, 2 / Real.sqrt 3, 2, 2 / Real.sqrt 3] := by
  rw [cycleRangesS, keptSrcS_scen, keptTgtS_scen, sph_analytic_cycle_eq_map,
    sph_analytic_cycle_eq_map]
  simp only [List.map_cons, List.map_nil, crS_neg]
  rw [crS_ninety, crS_sixty, crS_fortyfive]
  have h : (0.5 : ℝ) * (2 / Real.sqrt 3 + 2 / Real.sqrt 3) = 2 / Real.sqrt 3 := by
    ring
  simp only [List.zipWith_cons_cons, List.zipWith_nil_left, h]
  norm_num

theorem argmax_scen :
    argmax? [0, 2 / Real.sqrt 3, 2, 2 / Real.sqrt 3] = some 2 := by
  have e1 : argmaxAux [2 / Real.sqrt 3, 2, 2 / Real.sqrt 3] 1 ((0 : ℕ), (0 : ℝ))
      = argmaxAux [2, 2 / Real.sqrt 3] 2 (1, 2 / Real.sqrt 3) := by
    show argmaxAux [2, 2 / Real.sqrt 3] 2
        (if (0 : ℝ) < 2 / Real.sqrt 3 then ((1 : ℕ), 2 / Real.sqrt 3) else (0, 0))
      = argmaxAux [2, 2 / Real.sqrt 3] 2 (1, 2 / Real.sqrt 3)
    rw [if_pos crsLo_pos]
  have e2 : argmaxAux [2, 2 / Real.sqrt 3] 2 ((1 : ℕ), 2 / Real.sqrt 3)
      = argmaxAux [2 / Real.sqrt 3] 3 (2, 2) := by
    show argmaxAux [2 / Real.sqrt 3] 3
        (if 2 / Real.sqrt 3 < (2 : ℝ) then ((2 : ℕ), (2 : ℝ))
          else (1, 2 / Real.sqrt 3))
      = argmaxAux [2 / Real.sqrt 3] 3 (2, 2)
    rw [if_pos crsMid_lt]
  have e3 : argmaxAux [2 / Real.sqrt 3] 3 ((2 : ℕ), (2 : ℝ)) = (2, 2) := by
    show argmaxAux [] 4
        (if (2 : ℝ) < 2 / Real.sqrt 3 then ((3 : ℕ), 2 / Real.sqrt 3) else (2, 2))
      = (2, 2)
    rw [if_neg (not_lt.mpr crsMid_lt.le)]
    rfl
  rw [show argmax? [0, 2 / Real.sqrt 3, 2, 2 / Real.sqrt 3]
      = some (argmaxAux [2 / Real.sqrt 3, 2, 2 / Real.sqrt 3] 1 (0, 0)).1 from rfl,
    e1, e2, e3]

theorem maxIdxC_scen : maxIdxC pCart1 spProbe 0 0 [90, 60, 45, 60] = 2 := by
  rw [maxIdxC, crsC_scen, argmax_scen]
  rfl

theorem maxIdxS_scen : maxIdxS pSph1 spProbe 0 0 [90, 60, 45, 60] = 2 := by
  rw [maxIdxS, crsS_scen, argmax_scen]
  rfl

theorem clippedC_scen :
    clippedC pCart1 spProbe 0 0 [90, 60, 45, 60] [2] = [2] := by
  simp only [clippedC, crsC_scen, maxIdxC_scen]
  norm_num [List.getD]

theorem clippedS_scen :
    clippedS pSph1 spProbe 0 0 [90, 60, 45, 60] [2] = [2] := by
  simp only [clippedS, crsS_scen, maxIdxS_scen]
  norm_num [List.getD]

theorem guard_scen :
    (pchipCheck (([0, 2 / Real.sqrt 3, 2, 2 / Real.sqrt 3] : List ℝ).take 2) &&
        pchipCheck
          (([0, 2 / Real.sqrt 3, 2, 2 / Real.sqrt 3] : List ℝ).drop 2).reverse)
      = true := by
  simp [pchipCheck, chainLt, crsLo_pos, crsMid_lt]

theorem eigenC_scen :
    pCart1.eigenrays spProbe 0 [90, 60, 45, 60] 0 [2] = some (eigTwo, eigTwo) := by
  simp only [PedersenCartesian.eigenrays, crsC_scen, argmax_scen]
  rw [if_pos guard_scen]
  simp [clippedC_scen, spProbe_pchip, eigTwo]

theorem eigenS_scen :
    pSph1.eigenrays spProbe 0 [90, 60, 45, 60] 0 [2] = some (eigTwo, eigTwo) := by
  simp only [PedersenSpherical.eigenrays, crsS_scen, argmax_scen]
  rw [if_pos guard_scen]
  simp [clippedS_scen, spProbe_pchip, eigTwo]

theorem targetCosC_pCartD_zero : targetCosC pCartD 0 0 0 = 1 := by
  rw [targetCosC, cos_radians_zero, pCartD_ss_zero]
  norm_num

theorem targetCosS_pSph1_zero : targetCosS pSph1 0 0 0 = 1 := by
  have h : pSph1.earth_radius - (0 : ℝ) = 1 := by
    show (1 : ℝ) - 0 = 1
    norm_num
  rw [targetCosS, cos_radians_zero, h, pSph1_ss_one]
  norm_num

/-! ### Characterization of the Snell mask selection as a filter -/

theorem maskC_eq_map (p : PedersenCartesian) (zs zt : ℝ) (angles : List ℝ) :
    maskC p zs zt angles
      = angles.map (fun a => decide (targetCosC p zs zt a < 1)) := by
  rw [maskC, List.map_map]
  rfl

theorem keptSrcC_eq_filter (p : PedersenCartesian) (zs zt : ℝ) (angles : List ℝ) :
    keptSrcC p zs zt angles
      = angles.filter (fun a => decide (targetCosC p zs zt a < 1)) := by
  rw [keptSrcC, maskC_eq_map, maskSelect_map]

theorem keptTgtC_eq_filter (p : PedersenCartesian) (zs zt : ℝ) (angles : List ℝ) :
    keptTgtC p zs zt angles
      = (angles.filter (fun a => decide (targetCosC p zs zt a < 1))).map
          (fun a => -(degrees (Real.arccos (targetCosC p zs zt a)))) := by
  rw [keptTgtC, maskC, maskSelect_map, List.filter_map, List.map_map]
  rfl

theorem maskS_eq_map (p : PedersenSpherical) (zs zt : ℝ) (angles : List ℝ) :
    maskS p zs zt angles
      = angles.map (fun a => decide (targetCosS p zs zt a < 1)) := by
  rw [maskS, List.map_map]
  rfl

theorem keptSrcS_eq_filter (p : PedersenSpherical) (zs zt : ℝ) (angles : List ℝ) :
    keptSrcS p zs zt angles
      = angles.filter (fun a => decide (targetCosS p zs zt a < 1)) := by
  rw [keptSrcS, maskS_eq_map, maskSelect_map]

theorem keptTgtS_eq_filter (p : PedersenSpherical) (zs zt : ℝ) (angles : List ℝ) :
    keptTgtS p zs zt angles
      = (angles.filter (fun a => decide (targetCosS p zs zt a < 1))).map
          (fun a => -(degrees (Real.arccos (targetCosS p zs zt a)))) := by
  rw [keptTgtS, maskS, maskSelect_map, List.filter_map, List.map_map]
  rfl

/-! ### Claim theorems -/

/-- C6 counterexample: the claim says a non-physical configuration (such as a
negative surface speed) is rejected at construction time with a descriptive
error.  In the code `__init__` performs no validation at all: constructing
either model with `surface_speed = -1` succeeds and no error is produced. -/
theorem C6_counterexample :
    PedersenCartesian.init (-1) (6 / 5) = Except.ok ⟨-1, 6 / 5⟩ ∧
    PedersenSpherical.init (-1) (6 / 5) 6366710 = Except.ok ⟨-1, 6 / 5, 6366710⟩ ∧
    ¬ ∃ e, PedersenCartesian.init (-1) (6 / 5) = Except.error e := by
  refine ⟨rfl, rfl, ?_⟩
  rintro ⟨e, he⟩
  simp [PedersenCartesian.init] at he

/-- C6 amended: construction never fails.  `PedersenCartesian.__init__` and
`PedersenSpherical.__init__` store the given parameters with no validation,
even for non-physical configurations such as a non-positive surface speed;
invalid configurations propagate unchecked to every downstream evaluation. -/
theorem C6_no_validation :
    (∀ c0 g0 : ℝ, PedersenCartesian.init c0 g0 = Except.ok ⟨c0, g0⟩) ∧
      ∀ c0 g0 er : ℝ, PedersenSpherical.init c0 g0 er = Except.ok ⟨c0, g0, er⟩ :=
  ⟨fun _ _ => rfl, fun _ _ _ => rfl⟩

/-- C3: `PedersenCartesian.sound_speed z` equals `c0 / sqrt(1 + 2 g0 z / c0)`
and `PedersenSpherical.sound_speed r` equals
`[c0 / sqrt(1 + 2 g0 (R - r) / c0)] * (r / R)` (stated on the full valid
domain required by the claim), and array evaluation (modelled as `List.map`,
matching the element-wise numpy broadcast) agrees entry by entry with scalar
evaluation.  Both are pure functions, so there are no side effects. -/
theorem C3_sound_speed (p : PedersenCartesian) (q : PedersenSpherical)
    (z r : ℝ) (zs rs : List ℝ) (i j : ℕ)
    (hz : 0 < 1 + 2 * p.surface_grad * z / p.surface_speed)
    (hr : 0 < 1 + 2 * q.surface_grad * (q.earth_radius - r) / q.surface_speed)
    (hi : i < zs.length) (hj : j < rs.length) :
    p.sound_speed z
        = p.surface_speed / Real.sqrt (1 + 2 * p.surface_grad * z / p.surface_speed) ∧
    q.sound_speed r
        = q.surface_speed /
            Real.sqrt (1 + 2 * q.surface_grad * (q.earth_radius - r) / q.surface_speed) *
          (r / q.earth_radius) ∧
    (zs.map p.sound_speed).getD i 0 = p.sound_speed (zs.getD i 0) ∧
    (rs.map q.sound_speed).getD j 0 = q.sound_speed (rs.getD j 0) := by
  refine ⟨?_, ?_, getD_map _ _ _ hi _, getD_map _ _ _ hj _⟩
  · rw [PedersenCartesian.sound_speed,
      show 1 + 2 * p.surface_grad / p.surface_speed * z
          = 1 + 2 * p.surface_grad * z / p.surface_speed by ring]
  · rw [PedersenSpherical.sound_speed,
      show 1 + 2 * q.surface_grad / q.surface_speed * (q.earth_radius - r)
          = 1 + 2 * q.surface_grad * (q.earth_radius - r) / q.surface_speed by ring,
      mul_div_assoc]

/-- Witness for C3 at the source default Cartesian configuration and the toy
Spherical configuration, depth 0 and radius 1. -/
theorem C3_witness :
    (0 : ℝ) < 1 + 2 * pCartD.surface_grad * 0 / pCartD.surface_speed ∧
    pCartD.sound_speed 0
      = pCartD.surface_speed /
          Real.sqrt (1 + 2 * pCartD.surface_grad * 0 / pCartD.surface_speed) :=
  ⟨by norm_num [pCartD],
    (C3_sound_speed pCartD pSph1 0 1 [0] [1] 0 0 (by norm_num [pCartD])
      (by norm_num [pSph1]) (by norm_num) (by norm_num)).1⟩

/-- C5: in both `eigenrays` implementations the boolean mask
`target_angles < 1.0` removes from the source sweep and from the target-angle
array exactly the angles whose Snell target-angle cosine is at least 1; the
kept angles are exactly those with cosine < 1, in their original order (the
kept sweep is a sublist of the input sweep), and the kept target-angle array
is the image of the kept sweep. -/
theorem C5_snell_filter (p : PedersenCartesian) (q : PedersenSpherical)
    (zs zt zs2 zt2 : ℝ) (angles angles2 : List ℝ) :
    keptSrcC p zs zt angles
        = angles.filter (fun a => decide (targetCosC p zs zt a < 1)) ∧
    keptTgtC p zs zt angles
        = (angles.filter (fun a => decide (targetCosC p zs zt a < 1))).map
            (fun a => -(degrees (Real.arccos (targetCosC p zs zt a)))) ∧
    (keptSrcC p zs zt angles).Sublist angles ∧
    (∀ a, a ∈ keptSrcC p zs zt angles ↔ a ∈ angles ∧ targetCosC p zs zt a < 1) ∧
    keptSrcS q zs2 zt2 angles2
        = angles2.filter (fun a => decide (targetCosS q zs2 zt2 a < 1)) ∧
    keptTgtS q zs2 zt2 angles2
        = (angles2.filter (fun a => decide (targetCosS q zs2 zt2 a < 1))).map
            (fun a => -(degrees (Real.arccos (targetCosS q zs2 zt2 a)))) ∧
    (keptSrcS q zs2 zt2 angles2).Sublist angles2 ∧
    (∀ a, a ∈ keptSrcS q zs2 zt2 angles2 ↔ a ∈ angles2 ∧ targetCosS q zs2 zt2 a < 1) := by
  refine ⟨keptSrcC_eq_filter p zs zt angles, keptTgtC_eq_filter p zs zt angles, ?_, ?_,
    keptSrcS_eq_filter q zs2 zt2 angles2, keptTgtS_eq_filter q zs2 zt2 angles2, ?_, ?_⟩
  · rw [keptSrcC_eq_filter]
    exact List.filter_sublist _
  · intro a
    rw [keptSrcC_eq_filter]
    simp [List.mem_filter]
  · rw [keptSrcS_eq_filter]
    exact List.filter_sublist _
  · intro a
    rw [keptSrcS_eq_filter]
    simp [List.mem_filter]

/-- C8: both `analytic_cycle` implementations are element-wise maps over the
launch-angle array: the batched call is the tuple of per-angle maps, all four
output arrays have the length of the input array, and the batched call over a
concatenation is the concatenation of the batched calls. -/
theorem C8_batched_map (p : PedersenCartesian) (q : PedersenSpherical)
    (sp sq : SciPy) (zs zs2 : ℝ) (angles xs ys angles2 xs2 ys2 : List ℝ) :
    (p.analytic_cycle sp zs angles =
      (angles.map (fun a => (cartOne p sp zs a).1),
       angles.map (fun a => (cartOne p sp zs a).2.1),
       angles.map (fun a => (cartOne p sp zs a).2.2.1),
       angles.map (fun a => (cartOne p sp zs a).2.2.2)) ∧
     (p.analytic_cycle sp zs angles).1.length = angles.length ∧
     (p.analytic_cycle sp zs angles).2.1.length = angles.length ∧
     (p.analytic_cycle sp zs angles).2.2.1.length = angles.length ∧
     (p.analytic_cycle sp zs angles).2.2.2.length = angles.length ∧
     (p.analytic_cycle sp zs (xs ++ ys)).1
        = (p.analytic_cycle sp zs xs).1 ++ (p.analytic_cycle sp zs ys).1 ∧
     (p.analytic_cycle sp zs (xs ++ ys)).2.1
        = (p.analytic_cycle sp zs xs).2.1 ++ (p.analytic_cycle sp zs ys).2.1 ∧
     (p.analytic_cycle sp zs (xs ++ ys)).2.2.1
        = (p.analytic_cycle sp zs xs).2.2.1 ++ (p.analytic_cycle sp zs ys).2.2.1 ∧
     (p.analytic_cycle sp zs (xs ++ ys)).2.2.2
        = (p.analytic_cycle sp zs xs).2.2.2 ++ (p.analytic_cycle sp zs ys).2.2.2) ∧
    (q.analytic_cycle sq zs2 angles2 =
      (angles2.map (fun a => (sphOne q sq zs2 a).1),
       angles2.map (fun a => (sphOne q sq zs2 a).2.1),
       angles2.map (fun a => (sphOne q sq zs2 a).2.2.1),
       angles2.map (fun a => (sphOne q sq zs2 a).2.2.2)) ∧
     (q.analytic_cycle sq zs2 angles2).1.length = angles2.length ∧
     (q.analytic_cycle sq zs2 angles2).2.1.length = angles2.length ∧
     (q.analytic_cycle sq zs2 angles2).2.2.1.length = angles2.length ∧
     (q.analytic_cycle sq zs2 angles2).2.2.2.length = angles2.length ∧
     (q.analytic_cycle sq zs2 (xs2 ++ ys2)).1
        = (q.analytic_cycle sq zs2 xs2).1 ++ (q.analytic_cycle sq zs2 ys2).1 ∧
     (q.analytic_cycle sq zs2 (xs2 ++ ys2)).2.1
        = (q.analytic_cycle sq zs2 xs2).2.1 ++ (q.analytic_cycle sq zs2 ys2).2.1 ∧
     (q.analytic_cycle sq zs2 (xs2 ++ ys2)).2.2.1
        = (q.analytic_cycle sq zs2 xs2).2.2.1 ++ (q.analytic_cycle sq zs2 ys2).2.2.1 ∧
     (q.analytic_cycle sq zs2 (xs2 ++ ys2)).2.2.2
        = (q.analytic_cycle sq zs2 xs2).2.2.2 ++ (q.analytic_cycle sq zs2 ys2).2.2.2) := by
  simp [cart_analytic_cycle_eq_map, sph_analytic_cycle_eq_map]

/-- C1 amended: when the Snell mapping of step 1 discards every launch angle,
`eigenrays` does not return empty branches; the composite cycle-range array
is empty and `numpy.argmax` fails on it (a `ValueError` in the source,
modelled as `none`), so the call raises instead of returning. -/
theorem C1_all_discarded_raises (p : PedersenCartesian) (q : PedersenSpherical)
    (sp sq : SciPy) (zs zt zs2 zt2 : ℝ) (angles angles2 trs trs2 : List ℝ)
    (hC : ∀ a ∈ angles, 1 ≤ targetCosC p zs zt a)
    (hS : ∀ a ∈ angles2, 1 ≤ targetCosS q zs2 zt2 a) :
    p.eigenrays sp zs angles zt trs = none ∧
      q.eigenrays sq zs2 angles2 zt2 trs2 = none := by
  have hkC : keptSrcC p zs zt angles = [] := by
    rw [keptSrcC_eq_filter]
    refine List.filter_eq_nil_iff.mpr (fun a ha => ?_)
    simp [not_lt.mpr (hC a ha)]
  have hkS : keptSrcS q zs2 zt2 angles2 = [] := by
    rw [keptSrcS_eq_filter]
    refine List.filter_eq_nil_iff.mpr (fun a ha => ?_)
    simp [not_lt.mpr (hS a ha)]
  have hcrsC : cycleRangesC p sp zs zt angles = [] := by
    rw [cycleRangesC, hkC]
    simp [PedersenCartesian.analytic_cycle]
  have hcrsS : cycleRangesS q sq zs2 zt2 angles2 = [] := by
    rw [cycleRangesS, hkS]
    simp [PedersenSpherical.analytic_cycle]
  constructor
  · simp [PedersenCartesian.eigenrays, hcrsC, argmax?]
  · simp [PedersenSpherical.eigenrays, hcrsS, argmax?]

/-- C1 counterexample: at source depth 0, target depth 0 and the single
launch angle 0 the Snell cosine equals 1 for every angle, so step 1 discards
the whole sweep; the claim says both branches are returned empty, but
`eigenrays` fails (`numpy.argmax` of an empty array raises `ValueError`,
modelled as `none`) in both coordinate systems. -/
theorem C1_counterexample :
    pCartD.eigenrays spStub 0 [0] 0 [] = none ∧
      pSph1.eigenrays spStub 0 [0] 0 [] = none := by
  have hmC : maskC pCartD 0 0 [0] = [false] := by
    simp only [maskC, List.map_cons, List.map_nil, targetCosC_pCartD_zero]
    norm_num
  have hmS : maskS pSph1 0 0 [0] = [false] := by
    simp only [maskS, List.map_cons, List.map_nil, targetCosS_pSph1_zero]
    norm_num
  have hkC : keptSrcC pCartD 0 0 [0] = [] := by
    rw [keptSrcC, hmC]
    rfl
  have hkS : keptSrcS pSph1 0 0 [0] = [] := by
    rw [keptSrcS, hmS]
    rfl
  have hcrsC : cycleRangesC pCartD spStub 0 0 [0] = [] := by
    rw [cycleRangesC, hkC]
    simp [PedersenCartesian.analytic_cycle]
  have hcrsS : cycleRangesS pSph1 spStub 0 0 [0] = [] := by
    rw [cycleRangesS, hkS]
    simp [PedersenSpherical.analytic_cycle]
  constructor
  · simp [PedersenCartesian.eigenrays, hcrsC, argmax?]
  · simp [PedersenSpherical.eigenrays, hcrsS, argmax?]

/-- Witness for the amended C1 at the degenerate configuration of the
counterexample: the all-discarded hypothesis holds there and `eigenrays`
returns `none` for both variants. -/
theorem C1_witness :
    (∀ a ∈ ([0] : List ℝ), 1 ≤ targetCosC pCartD 0 0 a) ∧
    pCartD.eigenrays spStub 0 [0] 0 [] = none ∧
      pSph1.eigenrays spStub 0 [0] 0 [] = none := by
  have hC : ∀ a ∈ ([0] : List ℝ), 1 ≤ targetCosC pCartD 0 0 a := by
    intro a ha
    have h : a = 0 := by simpa using ha
    rw [h, targetCosC_pCartD_zero]
  have hS : ∀ a ∈ ([0] : List ℝ), 1 ≤ targetCosS pSph1 0 0 a := by
    intro a ha
    have h : a = 0 := by simpa using ha
    rw [h, targetCosS_pSph1_zero]
  exact ⟨hC, C1_all_discarded_raises pCartD pSph1 spStub spStub 0 0 0 0 [0] [0] [] []
    hC hS⟩

/-- Characterization of a successful `PedersenCartesian.eigenrays` call: the
argmax succeeded at the break-point index, both branches carry the clipped
target-range list, and every interpolated field is one value per query. -/
theorem eigenraysC_some {p : PedersenCartesian} {sp : SciPy} {zs zt : ℝ}
    {angles trs : List ℝ} {d f : Eigenray}
    (h : p.eigenrays sp zs angles zt trs = some (d, f)) :
    argmax? (cycleRangesC p sp zs zt angles) = some (maxIdxC p sp zs zt angles) ∧
    d.range = clippedC p sp zs zt angles trs ∧
    f.range = clippedC p sp zs zt angles trs ∧
    d.travel_time.length = d.range.length ∧
    d.source_de.length = d.range.length ∧
    d.target_de.length = d.range.length ∧
    f.travel_time.length = f.range.length ∧
    f.source_de.length = f.range.length ∧
    f.target_de.length = f.range.length := by
  have h2 := h
  simp only [PedersenCartesian.eigenrays] at h2
  rcases harg : argmax? (cycleRangesC p sp zs zt angles) with _ | m
  · rw [harg] at h2
    simp at h2
  · rw [harg] at h2
    have hm : maxIdxC p sp zs zt angles = m := by
      rw [maxIdxC, harg]
      rfl
    simp only [Option.ite_none_right_eq_some, Option.some.injEq,
      Prod.mk.injEq] at h2
    obtain ⟨-, hd, hf⟩ := h2
    rw [hm]
    rw [← hd, ← hf]
    refine ⟨rfl, rfl, rfl, ?_, ?_, ?_, ?_, ?_, ?_⟩ <;> simp

/-- Characterization of a successful `PedersenSpherical.eigenrays` call. -/
theorem eigenraysS_some {p : PedersenSpherical} {sp : SciPy} {zs zt : ℝ}
    {angles trs : List ℝ} {d f : Eigenray}
    (h : p.eigenrays sp zs angles zt trs = some (d, f)) :
    argmax? (cycleRangesS p sp zs zt angles) = some (maxIdxS p sp zs zt angles) ∧
    d.range = clippedS p sp zs zt angles trs ∧
    f.range = clippedS p sp zs zt angles trs ∧
    d.travel_time.length = d.range.length ∧
    d.source_de.length = d.range.length ∧
    d.target_de.length = d.range.length ∧
    f.travel_time.length = f.range.length ∧
    f.source_de.length = f.range.length ∧
    f.target_de.length = f.range.length := by
  have h2 := h
  simp only [PedersenSpherical.eigenrays] at h2
  rcases harg : argmax? (cycleRangesS p sp zs zt angles) with _ | m
  · rw [harg] at h2
    simp at h2
  · rw [harg] at h2
    have hm : maxIdxS p sp zs zt angles = m := by
      rw [maxIdxS, harg]
      rfl
    simp only [Option.ite_none_right_eq_some, Option.some.injEq,
      Prod.mk.injEq] at h2
    obtain ⟨-, hd, hf⟩ := h2
    rw [hm]
    rw [← hd, ← hf]
    refine ⟨rfl, rfl, rfl, ?_, ?_, ?_, ?_, ?_, ?_⟩ <;> simp

/-- C10: every returning `eigenrays` call (either variant) gives direct and
folded branches with the same range array, equal to the requested
target-range list clipped once to the interval from the first composite
cycle range to the composite cycle range at the argmax index (which is the
maximum composite cycle range), and within each branch every interpolated
field has the length of that shared range array. -/
theorem C10_parallel_branches (p : PedersenCartesian) (q : PedersenSpherical)
    (sp sq : SciPy) (zs zt zs2 zt2 : ℝ) (angles trs angles2 trs2 : List ℝ)
    (d f d2 f2 : Eigenray)
    (hC : p.eigenrays sp zs angles zt trs = some (d, f))
    (hS : q.eigenrays sq zs2 angles2 zt2 trs2 = some (d2, f2)) :
    (d.range = f.range ∧ d.range = clippedC p sp zs zt angles trs ∧
      (∀ x ∈ cycleRangesC p sp zs zt angles,
        x ≤ (cycleRangesC p sp zs zt angles).getD (maxIdxC p sp zs zt angles) 0) ∧
      d.travel_time.length = d.range.length ∧ d.source_de.length = d.range.length ∧
      d.target_de.length = d.range.length ∧ f.travel_time.length = f.range.length ∧
      f.source_de.length = f.range.length ∧ f.target_de.length = f.range.length) ∧
    (d2.range = f2.range ∧ d2.range = clippedS q sq zs2 zt2 angles2 trs2 ∧
      (∀ x ∈ cycleRangesS q sq zs2 zt2 angles2,
        x ≤ (cycleRangesS q sq zs2 zt2 angles2).getD (maxIdxS q sq zs2 zt2 angles2) 0) ∧
      d2.travel_time.length = d2.range.length ∧ d2.source_de.length = d2.range.length ∧
      d2.target_de.length = d2.range.length ∧ f2.travel_time.length = f2.range.length ∧
      f2.source_de.length = f2.range.length ∧ f2.target_de.length = f2.range.length) := by
  obtain ⟨hargC, hdr, hfr, l1, l2, l3, l4, l5, l6⟩ := eigenraysC_some hC
  obtain ⟨hargS, hdr2, hfr2, m1, m2, m3, m4, m5, m6⟩ := eigenraysS_some hS
  exact ⟨⟨hdr.trans hfr.symm, hdr, argmax?_getD_max hargC, l1, l2, l3, l4, l5, l6⟩,
    ⟨hdr2.trans hfr2.symm, hdr2, argmax?_getD_max hargS, m1, m2, m3, m4, m5, m6⟩⟩

/-- Witness for C10 at the four-angle configuration on which the solver
(source and model alike) returns. -/
theorem C10_witness :
    pCart1.eigenrays spProbe 0 [90, 60, 45, 60] 0 [2] = some (eigTwo, eigTwo) ∧
    eigTwo.range = clippedC pCart1 spProbe 0 0 [90, 60, 45, 60] [2] ∧
    eigTwo.travel_time.length = eigTwo.range.length :=
  ⟨eigenC_scen,
    (C10_parallel_branches pCart1 pSph1 spProbe spProbe 0 0 0 0 [90, 60, 45, 60] [2]
        [90, 60, 45, 60] [2] eigTwo eigTwo eigTwo eigTwo eigenC_scen eigenS_scen).1.2.1,
    (C10_parallel_branches pCart1 pSph1 spProbe spProbe 0 0 0 0 [90, 60, 45, 60] [2]
        [90, 60, 45, 60] [2] eigTwo eigTwo eigTwo eigTwo eigenC_scen
        eigenS_scen).1.2.2.2.1⟩

/-- C4: if the vertex-difference function changes sign over the bracket (the
product of its values at the surface boundary and the anchor is negative),
the vertex returned by the `analytic_cycle` loop body is the `bisect` result,
which under the scipy root contract (stated as a hypothesis about the exact
call made) is a root of the vertex-difference function inside the bracket;
if there is no sign change, the vertex is exactly the preset surface
boundary: depth `0` in Cartesian and radius `earth_radius` in Spherical.
No error is raised in either case. -/
theorem C4_vertex_policy (p : PedersenCartesian) (q : PedersenSpherical)
    (sp sq : SciPy) (zs a zs2 a2 : ℝ)
    (hb : p.vertex_diff 0 (cartRayParam p zs a) *
          p.vertex_diff zs (cartRayParam p zs a) < 0 →
      p.vertex_diff (sp.bisect (fun z => p.vertex_diff z (cartRayParam p zs a)) 0 zs)
          (cartRayParam p zs a) = 0 ∧
      0 ≤ sp.bisect (fun z => p.vertex_diff z (cartRayParam p zs a)) 0 zs ∧
      sp.bisect (fun z => p.vertex_diff z (cartRayParam p zs a)) 0 zs ≤ zs)
    (hb2 : q.vertex_diff q.earth_radius (sphRayParam q zs2 a2) *
          q.vertex_diff (q.earth_radius - zs2) (sphRayParam q zs2 a2) < 0 →
      q.vertex_diff
          (sq.bisect (fun r => q.vertex_diff r (sphRayParam q zs2 a2))
            q.earth_radius (q.earth_radius - zs2)) (sphRayParam q zs2 a2) = 0 ∧
      q.earth_radius - zs2 ≤ sq.bisect (fun r => q.vertex_diff r (sphRayParam q zs2 a2))
          q.earth_radius (q.earth_radius - zs2) ∧
      sq.bisect (fun r => q.vertex_diff r (sphRayParam q zs2 a2)) q.earth_radius
          (q.earth_radius - zs2) ≤ q.earth_radius) :
    ((p.vertex_diff 0 (cartRayParam p zs a) *
          p.vertex_diff zs (cartRayParam p zs a) < 0 →
        p.vertex_diff ((cartOne p sp zs a).2.2.1) (cartRayParam p zs a) = 0 ∧
        0 ≤ (cartOne p sp zs a).2.2.1 ∧ (cartOne p sp zs a).2.2.1 ≤ zs) ∧
      (¬ p.vertex_diff 0 (cartRayParam p zs a) *
          p.vertex_diff zs (cartRayParam p zs a) < 0 →
        (cartOne p sp zs a).2.2.1 = 0)) ∧
    ((q.vertex_diff q.earth_radius (sphRayParam q zs2 a2) *
          q.vertex_diff (q.earth_radius - zs2) (sphRayParam q zs2 a2) < 0 →
        q.vertex_diff ((sphOne q sq zs2 a2).2.2.1) (sphRayParam q zs2 a2) = 0 ∧
        q.earth_radius - zs2 ≤ (sphOne q sq zs2 a2).2.2.1 ∧
        (sphOne q sq zs2 a2).2.2.1 ≤ q.earth_radius) ∧
      (¬ q.vertex_diff q.earth_radius (sphRayParam q zs2 a2) *
          q.vertex_diff (q.earth_radius - zs2) (sphRayParam q zs2 a2) < 0 →
        (sphOne q sq zs2 a2).2.2.1 = q.earth_radius)) := by
  simp only [cartOne, sphOne]
  refine ⟨⟨?_, ?_⟩, ?_, ?_⟩
  · intro hlt
    rw [if_pos hlt]
    exact hb hlt
  · intro hge
    rw [if_neg hge]
  · intro hlt
    rw [if_pos hlt]
    exact hb2 hlt
  · intro hge
    rw [if_neg hge]

/-- The ray parameter of the toy Cartesian configuration at anchor depth 1
and launch angle 45 degrees. -/
theorem cartRayParam_pCart1_fortyfive : cartRayParam pCart1 1 45 = Real.sqrt 2 := by
  rw [cartRayParam, cos_radians_fortyfive, pCart1_ss_one]
  ring

/-- Witness for C4: a genuine sign-change bracket in the Cartesian variant
(anchor depth 1, launch angle 45 degrees, where the vertex-difference root is
exactly `1/3` and the stand-in bisect returns it), and a no-sign-change
bracket in the Spherical variant (anchor depth 0). -/
theorem C4_witness :
    (¬ pCart1.vertex_diff 0 (cartRayParam pCart1 1 45) *
        pCart1.vertex_diff 1 (cartRayParam pCart1 1 45) < 0 →
      (cartOne pCart1 spRoot 1 45).2.2.1 = 0) ∧
    (¬ pSph1.vertex_diff pSph1.earth_radius (sphRayParam pSph1 0 0) *
        pSph1.vertex_diff (pSph1.earth_radius - 0) (sphRayParam pSph1 0 0) < 0 →
      (sphOne pSph1 spStub 0 0).2.2.1 = pSph1.earth_radius) := by
  refine (fun h => ⟨h.1.2, h.2.2⟩)
    (C4_vertex_policy pCart1 pSph1 spRoot spStub 1 45 0 0 ?_ ?_)
  · intro hsign
    refine ⟨?_, by norm_num [spRoot], by norm_num [spRoot]⟩
    rw [show spRoot.bisect
          (fun z => pCart1.vertex_diff z (cartRayParam pCart1 1 45)) 0 1 = 1 / 3 from rfl,
      PedersenCartesian.vertex_diff, cartRayParam_pCart1_fortyfive, pCart1_ss_third,
      mul_one_div, div_self (Real.sqrt_ne_zero'.mpr (by norm_num)), sub_self]
  · intro hsign
    rw [sub_zero] at hsign
    exact absurd hsign (not_lt.mpr (mul_self_nonneg _))

/-- The Cartesian sound speed is nonnegative whenever the surface speed is. -/
theorem cart_sound_speed_nonneg (p : PedersenCartesian) (hc : 0 ≤ p.surface_speed)
    (z : ℝ) : 0 ≤ p.sound_speed z := by
  rw [PedersenCartesian.sound_speed]
  exact div_nonneg hc (Real.sqrt_nonneg _)

/-- The Cartesian range integrand is nonnegative for a nonnegative ray
parameter (the square root is nonnegative by definition, and a division by
zero yields zero). -/
theorem cart_range_integrand_nonneg (p : PedersenCartesian) (hc : 0 ≤ p.surface_speed)
    {m : ℝ} (hm : 0 ≤ m) (z : ℝ) : 0 ≤ p.range_integrand z m := by
  simp only [PedersenCartesian.range_integrand]
  exact div_nonneg (mul_nonneg hm (cart_sound_speed_nonneg p hc z)) (Real.sqrt_nonneg _)

/-- The Spherical sound speed is nonnegative at nonnegative radii. -/
theorem sph_sound_speed_nonneg (q : PedersenSpherical) (hc : 0 ≤ q.surface_speed)
    (hR : 0 ≤ q.earth_radius) {r : ℝ} (hr : 0 ≤ r) : 0 ≤ q.sound_speed r := by
  rw [PedersenSpherical.sound_speed]
  exact div_nonneg (mul_nonneg (div_nonneg hc (Real.sqrt_nonneg _)) hr) hR

/-- `sound_speed r / r` is nonnegative for every real radius, including
negative ones (both factors change sign together). -/
theorem sph_speed_div_radius_nonneg (q : PedersenSpherical) (hc : 0 ≤ q.surface_speed)
    (hR : 0 ≤ q.earth_radius) (r : ℝ) : 0 ≤ q.sound_speed r / r := by
  rcases le_or_lt 0 r with hr | hr
  · exact div_nonneg (sph_sound_speed_nonneg q hc hR hr) hr
  · have h1 : q.sound_speed r ≤ 0 := by
      rw [PedersenSpherical.sound_speed]
      refine div_nonpos_iff.mpr (Or.inr ⟨?_, hR⟩)
      exact mul_nonpos_iff.mpr
        (Or.inl ⟨div_nonneg hc (Real.sqrt_nonneg _), hr.le⟩)
    exact div_nonneg_of_nonpos h1 hr.le

/-- The Spherical range integrand is nonnegative for a nonnegative ray
parameter at nonnegative radii. -/
theorem sph_range_integrand_nonneg (q : PedersenSpherical) (hc : 0 ≤ q.surface_speed)
    (hR : 0 ≤ q.earth_radius) {m : ℝ} (hm : 0 ≤ m) {r : ℝ} (hr : 0 ≤ r) :
    0 ≤ q.range_integrand r m := by
  simp only [PedersenSpherical.range_integrand]
  have hcosine : 0 ≤ m * q.sound_speed r / r := by
    rw [mul_div_assoc]
    exact mul_nonneg hm (sph_speed_div_radius_nonneg q hc hR r)
  exact div_nonneg (div_nonneg hcosine (Real.sqrt_nonneg _)) hr

/-- CycleSolution invariant for one Cartesian angle, under physical-validity
hypotheses and the contracts of the scipy calls actually made. -/
theorem cartOne_invariant (p : PedersenCartesian) (sp : SciPy) (zs a : ℝ)
    (hzs : 0 ≤ zs) (hc : 0 ≤ p.surface_speed) (hcos : 0 ≤ Real.cos (radians a))
    (hb : p.vertex_diff 0 (cartRayParam p zs a) *
          p.vertex_diff zs (cartRayParam p zs a) < 0 →
      0 ≤ sp.bisect (fun z => p.vertex_diff z (cartRayParam p zs a)) 0 zs ∧
      sp.bisect (fun z => p.vertex_diff z (cartRayParam p zs a)) 0 zs ≤ zs)
    (hq : ∀ v, 0 ≤ v → v ≤ zs →
      (∀ z, v ≤ z → z ≤ zs → 0 ≤ p.range_integrand z (cartRayParam p zs a)) →
      0 ≤ sp.quad (fun z => p.range_integrand z (cartRayParam p zs a)) v zs) :
    0 ≤ (cartOne p sp zs a).1 ∧ 0 ≤ (cartOne p sp zs a).2.2.1 ∧
      (cartOne p sp zs a).2.2.1 ≤ zs := by
  have hm : 0 ≤ cartRayParam p zs a := by
    rw [cartRayParam]
    exact div_nonneg hcos (cart_sound_speed_nonneg p hc zs)
  have hint : ∀ z, 0 ≤ p.range_integrand z (cartRayParam p zs a) :=
    fun z => cart_range_integrand_nonneg p hc hm z
  simp only [cartOne]
  by_cases hsign : p.vertex_diff 0 (cartRayParam p zs a) *
      p.vertex_diff zs (cartRayParam p zs a) < 0
  · obtain ⟨h1, h2⟩ := hb hsign
    rw [if_pos hsign]
    exact ⟨mul_nonneg (by norm_num) (hq _ h1 h2 fun z _ _ => hint z), h1, h2⟩
  · rw [if_neg hsign]
    exact ⟨mul_nonneg (by norm_num) (hq 0 le_rfl hzs fun z _ _ => hint z), le_rfl, hzs⟩

/-- CycleSolution invariant for one Spherical angle. -/
theorem sphOne_invariant (q : PedersenSpherical) (sp : SciPy) (zs a : ℝ)
    (hzs : 0 ≤ zs) (hzR : zs ≤ q.earth_radius) (hc : 0 ≤ q.surface_speed)
    (hcos : 0 ≤ Real.cos (radians a))
    (hb : q.vertex_diff q.earth_radius (sphRayParam q zs a) *
          q.vertex_diff (q.earth_radius - zs) (sphRayParam q zs a) < 0 →
      q.earth_radius - zs ≤ sp.bisect (fun r => q.vertex_diff r (sphRayParam q zs a))
          q.earth_radius (q.earth_radius - zs) ∧
      sp.bisect (fun r => q.vertex_diff r (sphRayParam q zs a)) q.earth_radius
          (q.earth_radius - zs) ≤ q.earth_radius)
    (hq : ∀ v, q.earth_radius - zs ≤ v → v ≤ q.earth_radius →
      (∀ r, q.earth_radius - zs ≤ r → r ≤ v →
        0 ≤ q.range_integrand r (sphRayParam q zs a)) →
      0 ≤ sp.quad (fun r => q.range_integrand r (sphRayParam q zs a))
          (q.earth_radius - zs) v) :
    0 ≤ (sphOne q sp zs a).1 ∧
      q.earth_radius - zs ≤ (sphOne q sp zs a).2.2.1 ∧
      (sphOne q sp zs a).2.2.1 ≤ q.earth_radius := by
  have hsr : 0 ≤ q.earth_radius - zs := sub_nonneg.mpr hzR
  have hsr2 : q.earth_radius - zs ≤ q.earth_radius := by linarith
  have hR : 0 ≤ q.earth_radius := le_trans hzs hzR
  have hm : 0 ≤ sphRayParam q zs a := by
    rw [sphRayParam]
    exact div_nonneg (mul_nonneg hsr hcos) (sph_sound_speed_nonneg q hc hR hsr)
  have hint : ∀ r, q.earth_radius - zs ≤ r →
      0 ≤ q.range_integrand r (sphRayParam q zs a) :=
    fun r hr => sph_range_integrand_nonneg q hc hR hm (le_trans hsr hr)
  simp only [sphOne]
  by_cases hsign : q.vertex_diff q.earth_radius (sphRayParam q zs a) *
      q.vertex_diff (q.earth_radius - zs) (sphRayParam q zs a) < 0
  · obtain ⟨h1, h2⟩ := hb hsign
    rw [if_pos hsign]
    refine ⟨?_, h1, h2⟩
    exact mul_nonneg
      (mul_nonneg (by norm_num) (hq _ h1 h2 fun r hr _ => hint r hr)) hsr
  · rw [if_neg hsign]
    refine ⟨?_, hsr2, le_rfl⟩
    exact mul_nonneg
      (mul_nonneg (by norm_num)
        (hq q.earth_radius hsr2 le_rfl fun r hr _ => hint r hr)) hsr

/-- C7 amended: for physically valid inputs (nonnegative anchor depth, in the
Spherical case at most the earth radius; nonnegative surface speed; launch
angle with nonnegative cosine, i.e. within plus or minus 90 degrees) and
scipy primitives meeting their contracts for the calls actually made (bisect
lands in its bracket; quad of a nonnegative integrand over an ordered
interval is nonnegative), every per-angle tuple of `analytic_cycle` has a
nonnegative cycle range and a vertex between the anchor and the surface
boundary. -/
theorem C7_cycle_invariant (p : PedersenCartesian) (q : PedersenSpherical)
    (sp sq : SciPy) (zs a zs2 a2 : ℝ)
    (hzs : 0 ≤ zs) (hc : 0 ≤ p.surface_speed) (hcos : 0 ≤ Real.cos (radians a))
    (hb : p.vertex_diff 0 (cartRayParam p zs a) *
          p.vertex_diff zs (cartRayParam p zs a) < 0 →
      0 ≤ sp.bisect (fun z => p.vertex_diff z (cartRayParam p zs a)) 0 zs ∧
      sp.bisect (fun z => p.vertex_diff z (cartRayParam p zs a)) 0 zs ≤ zs)
    (hq : ∀ v, 0 ≤ v → v ≤ zs →
      (∀ z, v ≤ z → z ≤ zs → 0 ≤ p.range_integrand z (cartRayParam p zs a)) →
      0 ≤ sp.quad (fun z => p.range_integrand z (cartRayParam p zs a)) v zs)
    (hzs2 : 0 ≤ zs2) (hzR : zs2 ≤ q.earth_radius) (hc2 : 0 ≤ q.surface_speed)
    (hcos2 : 0 ≤ Real.cos (radians a2))
    (hb2 : q.vertex_diff q.earth_radius (sphRayParam q zs2 a2) *
          q.vertex_diff (q.earth_radius - zs2) (sphRayParam q zs2 a2) < 0 →
      q.earth_radius - zs2 ≤ sq.bisect (fun r => q.vertex_diff r (sphRayParam q zs2 a2))
          q.earth_radius (q.earth_radius - zs2) ∧
      sq.bisect (fun r => q.vertex_diff r (sphRayParam q zs2 a2)) q.earth_radius
          (q.earth_radius - zs2) ≤ q.earth_radius)
    (hq2 : ∀ v, q.earth_radius - zs2 ≤ v → v ≤ q.earth_radius →
      (∀ r, q.earth_radius - zs2 ≤ r → r ≤ v →
        0 ≤ q.range_integrand r (sphRayParam q zs2 a2)) →
      0 ≤ sq.quad (fun r => q.range_integrand r (sphRayParam q zs2 a2))
          (q.earth_radius - zs2) v) :
    (0 ≤ (cartOne p sp zs a).1 ∧ 0 ≤ (cartOne p sp zs a).2.2.1 ∧
      (cartOne p sp zs a).2.2.1 ≤ zs) ∧
    (0 ≤ (sphOne q sq zs2 a2).1 ∧
      q.earth_radius - zs2 ≤ (sphOne q sq zs2 a2).2.2.1 ∧
      (sphOne q sq zs2 a2).2.2.1 ≤ q.earth_radius) :=
  ⟨cartOne_invariant p sp zs a hzs hc hcos hb hq,
    sphOne_invariant q sq zs2 a2 hzs2 hzR hc2 hcos2 hb2 hq2⟩

/-- Witness for the amended C7 at the toy configurations with anchor depth 0
and launch angle 60 degrees. -/
theorem C7_witness :
    (0 : ℝ) ≤ 0 ∧
    ((0 ≤ (cartOne pCart1 spStub 0 60).1 ∧ 0 ≤ (cartOne pCart1 spStub 0 60).2.2.1 ∧
        (cartOne pCart1 spStub 0 60).2.2.1 ≤ 0) ∧
      (0 ≤ (sphOne pSph1 spStub 0 60).1 ∧
        pSph1.earth_radius - 0 ≤ (sphOne pSph1 spStub 0 60).2.2.1 ∧
        (sphOne pSph1 spStub 0 60).2.2.1 ≤ pSph1.earth_radius)) := by
  refine ⟨le_rfl, C7_cycle_invariant pCart1 pSph1 spStub spStub 0 60 0 60
    le_rfl ?_ ?_ ?_ ?_ le_rfl ?_ ?_ ?_ ?_ ?_⟩
  · norm_num [pCart1]
  · rw [cos_radians_sixty]
    norm_num
  · intro hsign
    exact absurd hsign (not_lt.mpr (mul_self_nonneg _))
  · intro v h1 h2 h3
    exact le_of_eq rfl
  · norm_num [pSph1]
  · norm_num [pSph1]
  · rw [cos_radians_sixty]
    norm_num
  · intro hsign
    rw [sub_zero] at hsign
    exact absurd hsign (not_lt.mpr (mul_self_nonneg _))
  · intro v h1 h2 h3
    exact le_of_eq rfl

/-- C7 counterexample: the claim quantifies over every launch angle, but for
a downward-pointing angle of 120 degrees (cosine `-(1/2)`) with anchor depth
1 in the toy Cartesian configuration, the scipy contracts hold for the calls
made and yet the computed cycle range `2 * quad(range_integrand, 0, 1)` is
negative, because the integrand is negative when the ray-parameter cosine
is. -/
theorem C7_counterexample :
    (pCart1.vertex_diff 0 (cartRayParam pCart1 1 120) *
        pCart1.vertex_diff 1 (cartRayParam pCart1 1 120) < 0 →
      0 ≤ spEval.bisect (fun z => pCart1.vertex_diff z (cartRayParam pCart1 1 120)) 0 1 ∧
      spEval.bisect (fun z => pCart1.vertex_diff z (cartRayParam pCart1 1 120)) 0 1 ≤ 1) ∧
    (∀ v, 0 ≤ v → v ≤ 1 →
      (∀ z, v ≤ z → z ≤ 1 → 0 ≤ pCart1.range_integrand z (cartRayParam pCart1 1 120)) →
      0 ≤ spEval.quad (fun z => pCart1.range_integrand z (cartRayParam pCart1 1 120)) v 1) ∧
    (cartOne pCart1 spEval 1 120).1 < 0 := by
  have hm : cartRayParam pCart1 1 120 = -1 := by
    rw [cartRayParam, cos_radians_onetwenty, pCart1_ss_one]
    norm_num
  have hvd0 : pCart1.vertex_diff 0 (cartRayParam pCart1 1 120) = 2 := by
    rw [PedersenCartesian.vertex_diff, hm, pCart1_ss_zero]
    norm_num
  have hvd1 : pCart1.vertex_diff 1 (cartRayParam pCart1 1 120) = 3 / 2 := by
    rw [PedersenCartesian.vertex_diff, hm, pCart1_ss_one]
    norm_num
  have hf1 : pCart1.range_integrand 1 (cartRayParam pCart1 1 120) < 0 := by
    simp only [PedersenCartesian.range_integrand]
    rw [hm, pCart1_ss_one]
    have h34 : (1 : ℝ) - -1 * (1 / 2) * (-1 * (1 / 2)) = 3 / 4 := by norm_num
    rw [h34]
    exact div_neg_of_neg_of_pos (by norm_num) (Real.sqrt_pos.mpr (by norm_num))
  refine ⟨?_, ?_, ?_⟩
  · intro hsign
    rw [hvd0, hvd1] at hsign
    norm_num at hsign
  · intro v h1 h2 h3
    have hqv : spEval.quad
        (fun z => pCart1.range_integrand z (cartRayParam pCart1 1 120)) v 1
        = pCart1.range_integrand 1 (cartRayParam pCart1 1 120) * (1 - v) := rfl
    rw [hqv]
    exact mul_nonneg (h3 1 h2 le_rfl) (by linarith)
  · simp only [cartOne]
    rw [if_neg (show ¬ pCart1.vertex_diff 0 (cartRayParam pCart1 1 120) *
          pCart1.vertex_diff 1 (cartRayParam pCart1 1 120) < 0 by
        rw [hvd0, hvd1]
        norm_num)]
    have hq0 : spEval.quad
        (fun z => pCart1.range_integrand z (cartRayParam pCart1 1 120)) 0 1
        = pCart1.range_integrand 1 (cartRayParam pCart1 1 120) * (1 - 0) := rfl
    rw [hq0]
    nlinarith [hf1]

end Pedersen
